import Mathlib

/-!
Verification of the NetworkSniffer wire-framing layer, packet decoder,
capture-batch walker and hub registry against their C++ sources.

Bytes are modelled as natural numbers (a byte read from the wire is `< 256`);
byte buffers and streams are lists of naturals.  Machine arithmetic from the
sources is carried over literally (`>>>`, `&&&`, `|||`, `<<<` on `Nat`), with
the observation that no operation in the modelled code can overflow its C type
on the values the surrounding checks allow.
-/

namespace NetworkSniffer

/-! ### Protocol constants (server.cpp lines 72-78, Protocol.h) -/

def PROTOCOL_VERSION : Nat := 0x01

def TERM_BYTE : Nat := 0x0A

def TYPE_CLIENT_HELLO : Nat := 0x01

def TYPE_SERVER_HELLO : Nat := 0x02

def TYPE_TRAFFIC_LOG : Nat := 0x03

def TYPE_FORWARD_LOG : Nat := 0x04

def TYPE_ERROR : Nat := 0x05

/-- A parsed frame: message type byte plus raw payload bytes
(struct Frame, server.cpp lines 119-122). -/
structure Frame where
  type : Nat
  payload : List Nat
deriving DecidableEq

/-! ### Frame encoding: `sendFrame` (server.cpp lines 228-242) -/

/-- The five regions of a frame in wire order:
version, type, big-endian length (as the two bytes the code computes),
payload, terminator. -/
def frameBytes (t : Nat) (payload : List Nat) : List Nat :=
  PROTOCOL_VERSION :: t :: ((payload.length >>> 8) &&& 0xFF) ::
    (payload.length &&& 0xFF) :: (payload ++ [TERM_BYTE])

/-- Embeds `sendFrame`: fails (returns false) when the payload exceeds 1024
bytes, otherwise writes the frame regions in order. -/
def sendFrame (t : Nat) (payload : List Nat) : Option (List Nat) :=
  if payload.length > 1024 then none else some (frameBytes t payload)

/-! ### Blocking frame decoding: `readExact` / `readFrame`
(server.cpp lines 141-213; the identical `Sniffer::readExact` /
`Sniffer::readFrame` are sniffer/Sniffer.cpp lines 348-434).
The byte stream the socket will deliver is modelled as a list; `readExact`
takes exactly `n` bytes from its front or fails (EOF / error). -/

def readExact (s : List Nat) (n : Nat) : Option (List Nat × List Nat) :=
  if n ≤ s.length then some (s.take n, s.drop n) else none

/-- Embeds the hub's blocking `readFrame`: returns the parsed frame and the
rest of the stream, or `none` on EOF or any validation failure (the C
function returns false and the caller closes the connection). -/
def readFrame (s : List Nat) : Option (Frame × List Nat) :=
  (readExact s 4).bind fun hs =>
    let header := hs.1
    if header.getD 0 0 ≠ PROTOCOL_VERSION then none
    else
      let length := ((header.getD 2 0) <<< 8) ||| (header.getD 3 0)
      if length > 1024 then none
      else
        (readExact hs.2 length).bind fun ps =>
          (readExact ps.2 1).bind fun ts =>
            if ts.1 ≠ [TERM_BYTE] then none
            else some (⟨header.getD 1 0, ps.1⟩, ts.2)

/-! ### Arithmetic of the two length bytes -/

/-- Splitting a length under 2^16 into the two bytes the encoder computes and
reassembling them the way the decoder does is the identity. -/
theorem lenBytes_roundtrip (n : Nat) (h : n < 65536) :
    (((n >>> 8) &&& 0xFF) <<< 8) ||| (n &&& 0xFF) = n := by
  have h255 : (0xFF : Nat) = 2 ^ 8 - 1 := by norm_num
  have hlo : n &&& 0xFF = n % 256 := by
    rw [h255, Nat.and_pow_two_sub_one_eq_mod]
  have hhi : (n >>> 8) &&& 0xFF = n / 256 % 256 := by
    rw [h255, Nat.and_pow_two_sub_one_eq_mod, Nat.shiftRight_eq_div_pow]
  rw [hlo, hhi, Nat.shiftLeft_eq]
  have hor : (2 : Nat) ^ 8 * (n / 256 % 256) + n % 256 =
      2 ^ 8 * (n / 256 % 256) ||| n % 256 :=
    Nat.mul_add_lt_is_or (by omega) _
  have h28 : (2 : Nat) ^ 8 = 256 := by norm_num
  rw [h28] at hor
  rw [Nat.mul_comm (n / 256 % 256) 256] at *
  omega

/-- Reading exactly the length of a chunk off the front of a stream yields
that chunk and the remainder. -/
theorem readExact_exact (l r : List Nat) (n : Nat) (h : l.length = n) :
    readExact (l ++ r) n = some (l, r) := by
  subst h
  simp [readExact, List.take_left, List.drop_left]

/-- The blocking decoder inverts the encoder: a well-sized frame followed by
any further stream bytes decodes to exactly the encoded type and payload,
consuming exactly the frame. -/
theorem readFrame_frameBytes (t : Nat) (p rest : List Nat) (hp : p.length ≤ 1024) :
    readFrame (frameBytes t p ++ rest) = some (⟨t, p⟩, rest) := by
  have hsplit : frameBytes t p ++ rest =
      [PROTOCOL_VERSION, t, (p.length >>> 8) &&& 0xFF, p.length &&& 0xFF] ++
        (p ++ ([TERM_BYTE] ++ rest)) := by
    simp [frameBytes]
  rw [readFrame, hsplit,
    readExact_exact [PROTOCOL_VERSION, t, (p.length >>> 8) &&& 0xFF,
      p.length &&& 0xFF] (p ++ ([TERM_BYTE] ++ rest)) 4 (by simp)]
  simp only [Option.some_bind, List.getD_cons_zero, List.getD_cons_succ]
  rw [lenBytes_roundtrip p.length (by omega)]
  rw [if_neg (by simp), if_neg (by omega)]
  rw [readExact_exact p ([TERM_BYTE] ++ rest) p.length rfl]
  simp only [Option.some_bind]
  rw [readExact_exact [TERM_BYTE] rest 1 (by simp)]
  simp

/-- C1. Frame round-trip: for every message type in 0x01..0x05 and payload of
at most 1024 bytes, `sendFrame` succeeds producing the five-region frame, and
the blocking decoder applied to those bytes (before any further stream
content) returns exactly the same type and payload. -/
theorem frame_roundtrip (t : Nat) (p : List Nat)
    (ht1 : 0x01 ≤ t) (ht5 : t ≤ 0x05) (hp : p.length ≤ 1024) :
    sendFrame t p = some (frameBytes t p) ∧
      ∀ rest, readFrame (frameBytes t p ++ rest) = some (⟨t, p⟩, rest) := by
  refine ⟨?_, fun rest => readFrame_frameBytes t p rest hp⟩
  simp [sendFrame, Nat.not_lt.mpr hp]

/-- Witness for C1 at type 0x03 and the 7-byte payload of spec scenario 4. -/
theorem frame_roundtrip_witness :
    sendFrame 0x03 [0x7b, 0x22, 0x61, 0x22, 0x3a, 0x31, 0x7d] =
        some (frameBytes 0x03 [0x7b, 0x22, 0x61, 0x22, 0x3a, 0x31, 0x7d]) ∧
      readFrame (frameBytes 0x03 [0x7b, 0x22, 0x61, 0x22, 0x3a, 0x31, 0x7d] ++ []) =
        some (⟨0x03, [0x7b, 0x22, 0x61, 0x22, 0x3a, 0x31, 0x7d]⟩, []) :=
  ⟨(frame_roundtrip 0x03 _ (by decide) (by decide) (by decide)).1,
    (frame_roundtrip 0x03 _ (by decide) (by decide) (by decide)).2 []⟩

/-! ### Non-blocking frame decoding: `SnifferClient::readFrame`
(SnifferClient.cpp lines 244-308) and the `onReadyRead` drain loop
(lines 183-198).  The decoder works over the accumulated `read_buffer_`. -/

/-- Outcome of one `SnifferClient::readFrame` call: `needMore` (false, buffer
untouched), `fatal` (false, buffer cleared), or a parsed frame (true, frame
removed from the buffer). -/
inductive ReadResult where
  | needMore
  | fatal
  | frame (f : Frame)
deriving DecidableEq

/-- Embeds `SnifferClient::readFrame`: steps 1-8 of the source, returning the
outcome together with the buffer the call leaves behind. -/
def clientReadFrame (buf : List Nat) : ReadResult × List Nat :=
  if buf.length < 4 then (.needMore, buf)
  else if buf.getD 0 0 ≠ PROTOCOL_VERSION then (.fatal, [])
  else
    let length := ((buf.getD 2 0) <<< 8) ||| (buf.getD 3 0)
    if length > 1024 then (.fatal, [])
    else if buf.length < 4 + length + 1 then (.needMore, buf)
    else if buf.getD (4 + length) 0 ≠ TERM_BYTE then (.fatal, [])
    else (.frame ⟨buf.getD 1 0, (buf.drop 4).take length⟩, buf.drop (4 + length + 1))

/-- A produced frame removes its own bytes (at least five) from the buffer. -/
theorem clientReadFrame_frame_length {buf buf' : List Nat} {f : Frame}
    (h : clientReadFrame buf = (.frame f, buf')) : buf'.length < buf.length := by
  unfold clientReadFrame at h
  dsimp only at h
  split at h
  · exact absurd h (by simp)
  split at h
  · exact absurd h (by simp)
  split at h
  · exact absurd h (by simp)
  split at h
  · exact absurd h (by simp)
  split at h
  · exact absurd h (by simp)
  · rename_i h4 _ _ hlen _
    have h2 := congrArg Prod.snd h
    simp at h2
    subst h2
    simp [List.length_drop]
    omega

/-- The `while (readFrame(frame))` loop of `onReadyRead`: parse complete
frames until the decoder reports need-more-data or a fatal error, collecting
the frames handed to `processFrame` in order. -/
def drainFrames (buf : List Nat) : List Frame × List Nat :=
  match h : clientReadFrame buf with
  | (.frame f, buf') =>
    have : buf'.length < buf.length := clientReadFrame_frame_length h
    let r := drainFrames buf'
    (f :: r.1, r.2)
  | (.needMore, buf') => ([], buf')
  | (.fatal, buf') => ([], buf')
termination_by buf.length

/-- Viewer-side connection state: the accumulating `read_buffer_` and the
frames delivered to `processFrame` so far. -/
structure ClientState where
  buffer : List Nat
  frames : List Frame
deriving DecidableEq

def initClient : ClientState := ⟨[], []⟩

/-- Embeds `onReadyRead`: append the newly arrived chunk to the buffer, then
drain all complete frames. -/
def onReadyRead (st : ClientState) (chunk : List Nat) : ClientState :=
  let r := drainFrames (st.buffer ++ chunk)
  ⟨r.2, st.frames ++ r.1⟩

/-- Push a sequence of socket chunks through `onReadyRead` in order. -/
def pushChunks (st : ClientState) : List (List Nat) → ClientState
  | [] => st
  | c :: cs => pushChunks (onReadyRead st c) cs

theorem frameBytes_length (t : Nat) (p : List Nat) :
    (frameBytes t p).length = p.length + 5 := by
  simp [frameBytes]

theorem getD_of_lt (l : List Nat) (i : Nat) (h : i < l.length) :
    l.getD i 0 = l[i] := by
  simp [List.getD_eq_getElem?_getD, List.getElem?_eq_getElem h]

/-- On a strict front portion of an encoded frame the non-blocking decoder
reports need-more-data and leaves the buffer untouched. -/
theorem clientReadFrame_take (t : Nat) (p P : List Nat) (hp : p.length ≤ 1024)
    (hpre : P <+: frameBytes t p) (hne : P.length < (frameBytes t p).length) :
    clientReadFrame P = (.needMore, P) := by
  by_cases h4 : P.length < 4
  · simp [clientReadFrame, h4]
  · have hB := frameBytes_length t p
    have e0 : P[0]?.getD 0 = PROTOCOL_VERSION := by
      rw [List.getElem?_eq_getElem (by omega), Option.getD_some, hpre.getElem]
      simp [frameBytes]
    have e2 : P[2]?.getD 0 = (p.length >>> 8) &&& 0xFF := by
      rw [List.getElem?_eq_getElem (by omega), Option.getD_some, hpre.getElem]
      simp [frameBytes]
    have e3 : P[3]?.getD 0 = p.length &&& 0xFF := by
      rw [List.getElem?_eq_getElem (by omega), Option.getD_some, hpre.getElem]
      simp [frameBytes]
    have hlt : P.length < 4 + p.length + 1 := by omega
    simp [clientReadFrame, h4, e0, e2, e3, lenBytes_roundtrip p.length (by omega),
      Nat.not_lt.mpr hp, hlt]

/-- On exactly the bytes of an encoded frame the non-blocking decoder
produces the frame and empties the buffer. -/
theorem clientReadFrame_full (t : Nat) (p : List Nat) (hp : p.length ≤ 1024) :
    clientReadFrame (frameBytes t p) = (.frame ⟨t, p⟩, []) := by
  have hB := frameBytes_length t p
  have e0 : (frameBytes t p)[0] = PROTOCOL_VERSION := by simp [frameBytes]
  have e1 : (frameBytes t p)[1] = t := by simp [frameBytes]
  have e2 : (frameBytes t p)[2] = (p.length >>> 8) &&& 0xFF := by simp [frameBytes]
  have e3 : (frameBytes t p)[3] = p.length &&& 0xFF := by simp [frameBytes]
  have esplit : frameBytes t p =
      ([PROTOCOL_VERSION, t, (p.length >>> 8) &&& 0xFF, p.length &&& 0xFF] ++ p)
        ++ [TERM_BYTE] := by
    simp [frameBytes]
  have hlen2 : ([PROTOCOL_VERSION, t, (p.length >>> 8) &&& 0xFF,
      p.length &&& 0xFF] ++ p).length = 4 + p.length := by
    simp
    omega
  have eterm : (frameBytes t p)[4 + p.length]?.getD 0 = TERM_BYTE := by
    rw [esplit, List.getElem?_append_right (by rw [hlen2]), hlen2]
    simp
  have eterm2 : (frameBytes t p)[4 + p.length] = TERM_BYTE := by
    rw [List.getElem?_eq_getElem (by omega)] at eterm
    simpa using eterm
  have epay : ((frameBytes t p).drop 4).take p.length = p := by
    have hdrop : (frameBytes t p).drop 4 = p ++ [TERM_BYTE] := by simp [frameBytes]
    rw [hdrop, List.take_left]
  have edrop : (frameBytes t p).drop (4 + p.length + 1) = [] := by
    apply List.drop_eq_nil_of_le
    omega
  simp [clientReadFrame, e0, e1, e2, e3, lenBytes_roundtrip p.length (by omega),
    Nat.not_lt.mpr hp, eterm, eterm2, epay, edrop, hB]
  rw [if_neg (by omega), if_neg (by omega)]

/-- Unfolding `drainFrames` when the decoder asks for more data. -/
theorem drainFrames_needMore {buf b : List Nat}
    (h : clientReadFrame buf = (.needMore, b)) : drainFrames buf = ([], b) := by
  rw [drainFrames]
  split
  · rename_i f b' heq
    rw [h] at heq
    exact absurd heq (by simp)
  · rename_i b' heq
    rw [h] at heq
    simp at heq
    rw [heq]
  · rename_i b' heq
    rw [h] at heq
    exact absurd heq (by simp)

/-- Unfolding `drainFrames` on a fatal framing error. -/
theorem drainFrames_fatal {buf b : List Nat}
    (h : clientReadFrame buf = (.fatal, b)) : drainFrames buf = ([], b) := by
  rw [drainFrames]
  split
  · rename_i f b' heq
    rw [h] at heq
    exact absurd heq (by simp)
  · rename_i b' heq
    rw [h] at heq
    exact absurd heq (by simp)
  · rename_i b' heq
    rw [h] at heq
    simp at heq
    rw [heq]

/-- Unfolding `drainFrames` when a frame is produced. -/
theorem drainFrames_frame {buf b : List Nat} {f : Frame}
    (h : clientReadFrame buf = (.frame f, b)) :
    drainFrames buf = (f :: (drainFrames b).1, (drainFrames b).2) := by
  rw [drainFrames]
  split
  · rename_i f' b' heq
    rw [h] at heq
    simp at heq
    rw [heq.1, heq.2]
  · rename_i b' heq
    rw [h] at heq
    exact absurd heq (by simp)
  · rename_i b' heq
    rw [h] at heq
    exact absurd heq (by simp)

theorem drainFrames_nil : drainFrames [] = ([], []) :=
  drainFrames_needMore (by simp [clientReadFrame])

theorem drainFrames_take (t : Nat) (p P : List Nat) (hp : p.length ≤ 1024)
    (hpre : P <+: frameBytes t p) (hne : P.length < (frameBytes t p).length) :
    drainFrames P = ([], P) :=
  drainFrames_needMore (clientReadFrame_take t p P hp hpre hne)

theorem drainFrames_full (t : Nat) (p : List Nat) (hp : p.length ≤ 1024) :
    drainFrames (frameBytes t p) = ([⟨t, p⟩], []) := by
  rw [drainFrames_frame (clientReadFrame_full t p hp), drainFrames_nil]

/-- Pushing empty chunks onto an empty buffer changes nothing. -/
theorem pushChunks_empties (cs : List (List Nat)) (fr : List Frame)
    (hj : cs.flatten = []) : pushChunks ⟨[], fr⟩ cs = ⟨[], fr⟩ := by
  induction cs with
  | nil => rfl
  | cons c cs ih =>
    simp only [List.flatten_cons, List.append_eq_nil] at hj
    have hc := hj.1
    subst hc
    show pushChunks (onReadyRead ⟨[], fr⟩ []) cs = ⟨[], fr⟩
    have : onReadyRead ⟨[], fr⟩ [] = ⟨[], fr⟩ := by
      simp [onReadyRead, drainFrames_nil]
    rw [this]
    exact ih hj.2

/-- While the chunks pushed so far only cover a strict front portion of a
frame, the viewer state is exactly that portion buffered with no frame
delivered. -/
theorem pushChunks_proper (t : Nat) (p : List Nat) (hp : p.length ≤ 1024) :
    ∀ (cs : List (List Nat)) (P : List Nat),
      (P ++ cs.flatten) <+: frameBytes t p →
      (P ++ cs.flatten).length < (frameBytes t p).length →
      pushChunks ⟨P, []⟩ cs = ⟨P ++ cs.flatten, []⟩ := by
  intro cs
  induction cs with
  | nil =>
    intro P _ _
    simp
    rfl
  | cons c cs ih =>
    intro P hQpre hlt
    have hP2 : (P ++ c) ++ cs.flatten = P ++ (c :: cs).flatten := by
      simp [List.flatten_cons]
    rw [← hP2] at hQpre hlt
    show pushChunks (onReadyRead ⟨P, []⟩ c) cs = _
    have hpc : (P ++ c) <+: frameBytes t p :=
      List.IsPrefix.trans ⟨cs.flatten, rfl⟩ hQpre
    have hpclen : (P ++ c).length < (frameBytes t p).length := by
      have h3 := hlt
      simp only [List.length_append] at h3 ⊢
      omega
    have hstep : onReadyRead ⟨P, []⟩ c = ⟨P ++ c, []⟩ := by
      simp [onReadyRead, drainFrames_take t p (P ++ c) hp hpc hpclen]
    rw [hstep, ← hP2]
    exact ih (P ++ c) hQpre hlt

/-- Once the chunks complete the frame exactly, the viewer state holds the
single decoded frame and an empty buffer. -/
theorem pushChunks_complete (t : Nat) (p : List Nat) (hp : p.length ≤ 1024) :
    ∀ (cs : List (List Nat)) (P : List Nat), P ++ cs.flatten = frameBytes t p →
      P.length < (frameBytes t p).length →
      pushChunks ⟨P, []⟩ cs = ⟨[], [⟨t, p⟩]⟩ := by
  intro cs
  induction cs with
  | nil =>
    intro P hPQ hlt
    simp only [List.flatten_nil, List.append_nil] at hPQ
    rw [hPQ] at hlt
    omega
  | cons c cs ih =>
    intro P hPQ hlt
    have hP2 : (P ++ c) ++ cs.flatten = frameBytes t p := by
      rw [← hPQ]
      simp [List.flatten_cons]
    by_cases hfull : (P ++ c).length < (frameBytes t p).length
    · show pushChunks (onReadyRead ⟨P, []⟩ c) cs = ⟨[], [⟨t, p⟩]⟩
      have hstep : onReadyRead ⟨P, []⟩ c = ⟨P ++ c, []⟩ := by
        simp [onReadyRead,
          drainFrames_take t p (P ++ c) hp ⟨cs.flatten, hP2⟩ hfull]
      rw [hstep]
      exact ih (P ++ c) hP2 hfull
    · have hjlen := congrArg List.length hP2
      simp only [List.length_append] at hjlen hfull
      have hje : cs.flatten = [] := by
        have hlen0 : cs.flatten.length = 0 := by omega
        exact List.eq_nil_of_length_eq_zero hlen0
      have hPc : P ++ c = frameBytes t p := by
        rw [hje, List.append_nil] at hP2
        exact hP2
      show pushChunks (onReadyRead ⟨P, []⟩ c) cs = ⟨[], [⟨t, p⟩]⟩
      have hstep : onReadyRead ⟨P, []⟩ c = ⟨[], [⟨t, p⟩]⟩ := by
        simp [onReadyRead, hPc, drainFrames_full t p hp]
      rw [hstep]
      exact pushChunks_empties cs [⟨t, p⟩] hje

/-- C2. Short-read safety of the non-blocking decoder: splitting a valid
frame into any sequence of chunks and pushing them in order through
`onReadyRead` delivers exactly that one frame and leaves the internal buffer
empty; and after any chunk that still misses at least one byte of the frame,
nothing has been delivered and the buffer holds exactly the bytes received. -/
theorem short_read_safety (t : Nat) (p : List Nat) (chunks : List (List Nat))
    (ht : t < 256) (hbytes : ∀ b ∈ p, b < 256) (hp : p.length ≤ 1024)
    (hj : chunks.flatten = frameBytes t p) :
    pushChunks initClient chunks = ⟨[], [⟨t, p⟩]⟩ ∧
      ∀ k, ((chunks.take k).flatten).length < (frameBytes t p).length →
        pushChunks initClient (chunks.take k) = ⟨(chunks.take k).flatten, []⟩ := by
  constructor
  · exact pushChunks_complete t p hp chunks [] (by simpa using hj)
      (by simp only [frameBytes_length, List.length_nil]; omega)
  · intro k hk
    have hdecomp : (chunks.take k).flatten ++ (chunks.drop k).flatten =
        frameBytes t p := by
      rw [← List.flatten_append, List.take_append_drop, hj]
    have := pushChunks_proper t p hp (chunks.take k) []
      (by simpa using ⟨(chunks.drop k).flatten, hdecomp⟩) (by simpa using hk)
    simpa using this

/-- Witness for C2: the 12-byte frame of spec scenario 4 fed one byte at a
time produces exactly that frame with an empty buffer. -/
theorem short_read_safety_witness :
    pushChunks initClient
        [[0x01], [0x03], [0x00], [0x07], [0x7b], [0x22], [0x61], [0x22],
         [0x3a], [0x31], [0x7d], [0x0a]] =
      ⟨[], [⟨0x03, [0x7b, 0x22, 0x61, 0x22, 0x3a, 0x31, 0x7d]⟩]⟩ :=
  (short_read_safety 0x03 [0x7b, 0x22, 0x61, 0x22, 0x3a, 0x31, 0x7d]
    [[0x01], [0x03], [0x00], [0x07], [0x7b], [0x22], [0x61], [0x22],
     [0x3a], [0x31], [0x7d], [0x0a]]
    (by decide) (by decide) (by decide) (by decide)).1

/-- C3. Frame rejection: when the buffered bytes are sufficient to expose a
violation of the version, length, or terminator constraint of the first
frame, the non-blocking decoder reports a fatal error, discards all buffered
bytes, and the drain loop delivers nothing; a buffer that is merely too
short (fewer than 4 bytes, or fewer than the complete frame) is never fatal:
the decoder reports need-more-data and leaves the buffered bytes exactly in
place. -/
theorem frame_rejection (buf : List Nat) :
    (4 ≤ buf.length → buf.getD 0 0 ≠ PROTOCOL_VERSION →
      clientReadFrame buf = (.fatal, []) ∧ drainFrames buf = ([], [])) ∧
    (4 ≤ buf.length → buf.getD 0 0 = PROTOCOL_VERSION →
      1024 < ((buf.getD 2 0) <<< 8) ||| (buf.getD 3 0) →
      clientReadFrame buf = (.fatal, []) ∧ drainFrames buf = ([], [])) ∧
    (buf.getD 0 0 = PROTOCOL_VERSION →
      ((buf.getD 2 0) <<< 8) ||| (buf.getD 3 0) ≤ 1024 →
      4 + (((buf.getD 2 0) <<< 8) ||| (buf.getD 3 0)) + 1 ≤ buf.length →
      buf.getD (4 + (((buf.getD 2 0) <<< 8) ||| (buf.getD 3 0))) 0 ≠ TERM_BYTE →
      clientReadFrame buf = (.fatal, []) ∧ drainFrames buf = ([], [])) ∧
    (buf.length < 4 →
      clientReadFrame buf = (.needMore, buf) ∧ drainFrames buf = ([], buf)) ∧
    (4 ≤ buf.length → buf.getD 0 0 = PROTOCOL_VERSION →
      ((buf.getD 2 0) <<< 8) ||| (buf.getD 3 0) ≤ 1024 →
      buf.length < 4 + (((buf.getD 2 0) <<< 8) ||| (buf.getD 3 0)) + 1 →
      clientReadFrame buf = (.needMore, buf) ∧ drainFrames buf = ([], buf)) := by
  refine ⟨?_, ?_, ?_, ?_, ?_⟩
  · intro h4 hv
    simp only [List.getD_eq_getElem?_getD] at hv
    have hc : clientReadFrame buf = (.fatal, []) := by
      simp [clientReadFrame, Nat.not_lt.mpr h4, hv]
    exact ⟨hc, drainFrames_fatal hc⟩
  · intro h4 hv hlen
    simp only [List.getD_eq_getElem?_getD] at hv hlen
    have hc : clientReadFrame buf = (.fatal, []) := by
      simp [clientReadFrame, Nat.not_lt.mpr h4, hv, hlen]
    exact ⟨hc, drainFrames_fatal hc⟩
  · intro hv hlen hcomp hterm
    simp only [List.getD_eq_getElem?_getD] at hv hlen hcomp hterm
    have h4 : ¬ buf.length < 4 := by omega
    have hc : clientReadFrame buf = (.fatal, []) := by
      simp [clientReadFrame, h4, hv, Nat.not_lt.mpr hlen, Nat.not_lt.mpr hcomp,
        hterm]
    exact ⟨hc, drainFrames_fatal hc⟩
  · intro h4
    have hc : clientReadFrame buf = (.needMore, buf) := by
      simp [clientReadFrame, h4]
    exact ⟨hc, drainFrames_needMore hc⟩
  · intro h4 hv hlen hshort
    simp only [List.getD_eq_getElem?_getD] at hv hlen hshort
    have hc : clientReadFrame buf = (.needMore, buf) := by
      simp [clientReadFrame, Nat.not_lt.mpr h4, hv, Nat.not_lt.mpr hlen, hshort]
    exact ⟨hc, drainFrames_needMore hc⟩

/-- Witness for C3: a bad version byte with a full header is fatal and clears
the buffer; a lone byte is a non-fatal short read left in place; a complete
frame with a bad terminator is fatal. -/
theorem frame_rejection_witness :
    (clientReadFrame [0x02, 0x03, 0x00, 0x00] = (.fatal, []) ∧
      drainFrames [0x02, 0x03, 0x00, 0x00] = ([], [])) ∧
    (clientReadFrame [0x01] = (.needMore, [0x01]) ∧
      drainFrames [0x01] = ([], [0x01])) ∧
    (clientReadFrame [0x01, 0x03, 0x00, 0x00, 0x42] = (.fatal, []) ∧
      drainFrames [0x01, 0x03, 0x00, 0x00, 0x42] = ([], [])) :=
  ⟨(frame_rejection [0x02, 0x03, 0x00, 0x00]).1 (by decide) (by decide),
    (frame_rejection [0x01]).2.2.2.1 (by decide),
    (frame_rejection [0x01, 0x03, 0x00, 0x00, 0x42]).2.2.1 (by decide)
      (by decide) (by decide) (by decide)⟩

/-- C10. The framing layer does not validate the type byte: a structurally
valid frame decodes successfully in both the blocking (hub) and the
non-blocking (viewer) decoder for every possible type byte 0..255, the type
being passed through to the layer above. -/
theorem framing_ignores_type_byte (t : Nat) (p rest : List Nat)
    (ht : t ≤ 0xFF) (hp : p.length ≤ 1024) :
    readFrame (frameBytes t p ++ rest) = some (⟨t, p⟩, rest) ∧
      clientReadFrame (frameBytes t p) = (.frame ⟨t, p⟩, []) :=
  ⟨readFrame_frameBytes t p rest hp, clientReadFrame_full t p hp⟩

/-- Witness for C10 at the undefined type byte 0xC7. -/
theorem framing_ignores_type_byte_witness :
    readFrame (frameBytes 0xC7 [0x30] ++ []) = some (⟨0xC7, [0x30]⟩, []) ∧
      clientReadFrame (frameBytes 0xC7 [0x30]) = (.frame ⟨0xC7, [0x30]⟩, []) :=
  framing_ignores_type_byte 0xC7 [0x30] [] (by decide) (by decide)

/-! ### Packet decoding: PacketParser.cpp
The decoder receives the captured slice (`packet`, `caplen`); the slice is
modelled as a list of bytes with `caplen` its length.  Multi-byte fields read
with `ntohs` are big-endian.  `sizeof` values are those of the BSD/macOS
headers the file includes; record emission (the `std::cout` line, with the
addresses rendered by `inet_ntop` kept as their four bytes) is modelled as an
optional record, `none` being a silent drop. -/

def be16 (pkt : List Nat) (i : Nat) : Nat :=
  256 * pkt.getD i 0 + pkt.getD (i + 1) 0

def sizeof_ether_header : Nat := 14

def sizeof_ip : Nat := 20

def sizeof_tcphdr : Nat := 20

def sizeof_udphdr : Nat := 8

/-- Size of `struct icmp` from netinet/ip_icmp.h: 4 bytes of
type/code/checksum, a 4-byte union, and a 20-byte union (its largest member
holds a `struct ip`).  This is what `parseICMP`'s bounds check uses, not the
8-byte minimum its comment describes. -/
def sizeof_struct_icmp : Nat := 28

/-- One emitted line of packet output. -/
inductive PRecord where
  | tcp (src dst : List Nat) (sport dport len : Nat)
  | udp (src dst : List Nat) (sport dport len : Nat)
  | icmp (src dst : List Nat) (itype icode : Nat) (idseq : Option (Nat × Nat))
      (len : Nat)
  | other (src dst : List Nat) (proto len : Nat)
deriving DecidableEq

/-- Embeds `PacketParser::parseTCP` (PacketParser.cpp lines 269-315). -/
def parseTCP (pkt : List Nat) (off : Nat) (src dst : List Nat) : Option PRecord :=
  if pkt.length < off + sizeof_tcphdr then none
  else some (.tcp src dst (be16 pkt off) (be16 pkt (off + 2)) (pkt.length - off))

/-- Embeds `PacketParser::parseUDP` (lines 365-406); the reported length is
the UDP length field. -/
def parseUDP (pkt : List Nat) (off : Nat) (src dst : List Nat) : Option PRecord :=
  if pkt.length < off + sizeof_udphdr then none
  else some (.udp src dst (be16 pkt off) (be16 pkt (off + 2)) (be16 pkt (off + 4)))

/-- Embeds `PacketParser::parseICMP` (lines 422-499): the bounds check is
against `sizeof(struct icmp)`; id/seq (bytes 4..8 big-endian) are shown only
for echo request (8) and echo reply (0). -/
def parseICMP (pkt : List Nat) (off : Nat) (src dst : List Nat) : Option PRecord :=
  if pkt.length < off + sizeof_struct_icmp then none
  else
    let itype := pkt.getD off 0
    let icode := pkt.getD (off + 1) 0
    let idseq :=
      if itype = 8 ∨ itype = 0 then some (be16 pkt (off + 4), be16 pkt (off + 6))
      else none
    some (.icmp src dst itype icode idseq (pkt.length - off))

/-- Embeds `PacketParser::parseIPv4` (lines 147-223): minimum 20-byte check,
header length from the low nibble of byte 0 (the little-endian `ip_hl`
bitfield), full-header bounds check, then dispatch on the protocol byte; the
default branch prints the protocol number and the IPv4 total length. -/
def parseIPv4 (pkt : List Nat) (off : Nat) : Option PRecord :=
  if pkt.length < off + sizeof_ip then none
  else
    let ip_hdr_len := (pkt.getD off 0 &&& 0xF) * 4
    if pkt.length < off + ip_hdr_len then none
    else
      let src := [pkt.getD (off + 12) 0, pkt.getD (off + 13) 0,
        pkt.getD (off + 14) 0, pkt.getD (off + 15) 0]
      let dst := [pkt.getD (off + 16) 0, pkt.getD (off + 17) 0,
        pkt.getD (off + 18) 0, pkt.getD (off + 19) 0]
      let proto := pkt.getD (off + 9) 0
      if proto = 1 then parseICMP pkt (off + ip_hdr_len) src dst
      else if proto = 6 then parseTCP pkt (off + ip_hdr_len) src dst
      else if proto = 17 then parseUDP pkt (off + ip_hdr_len) src dst
      else some (.other src dst proto (be16 pkt (off + 2)))

/-- Embeds `PacketParser::parseEthernet` (lines 83-112): only EtherType
0x0800 proceeds. -/
def parseEthernet (pkt : List Nat) : Option PRecord :=
  if be16 pkt 12 = 0x0800 then parseIPv4 pkt sizeof_ether_header else none

/-- Embeds `PacketParser::parseAndPrint` (lines 36-53). -/
def parseAndPrint (pkt : List Nat) : Option PRecord :=
  if pkt.length < sizeof_ether_header then none else parseEthernet pkt

/-- A 34-byte Ethernet+IPv4 packet whose IHL nibble is 0 (byte 14 = 0x40)
and whose protocol byte is 255. -/
def pktIhlZero : List Nat :=
  [0xff, 0xff, 0xff, 0xff, 0xff, 0xff, 0x00, 0x00, 0x00, 0x00, 0x00, 0x00,
   0x08, 0x00,
   0x40, 0x00, 0x00, 0x28, 0x00, 0x00, 0x00, 0x00, 0x40, 0xff, 0x00, 0x00,
   0x0a, 0x00, 0x00, 0x01, 0x0a, 0x00, 0x00, 0x02]

/-- Counterexample to C4 as stated: this packet's IHL is 0 (less than 5),
yet the decoder emits a record rather than rejecting the packet. -/
theorem ipv4_ihl_below_five_still_emits :
    pktIhlZero.getD 14 0 &&& 0xF < 5 ∧
      parseAndPrint pktIhlZero =
        some (.other [0x0a, 0x00, 0x00, 0x01] [0x0a, 0x00, 0x00, 0x02]
          0xff 0x28) := by
  decide

/-- C4 amended: `parseIPv4` rejects exactly when the slice is shorter than
the 20-byte fixed header or shorter than `IHL * 4` from the offset; the IHL
nibble itself is never validated against the minimum of 5, and a non-ICMP,
non-TCP, non-UDP packet whose (possibly under-sized) declared header fits is
decoded to a record. -/
theorem parseIPv4_reject_iff_short (pkt : List Nat) (off : Nat) :
    (pkt.length < off + sizeof_ip → parseIPv4 pkt off = none) ∧
    (off + sizeof_ip ≤ pkt.length →
      pkt.length < off + (pkt.getD off 0 &&& 0xF) * 4 → parseIPv4 pkt off = none) ∧
    (off + sizeof_ip ≤ pkt.length →
      off + (pkt.getD off 0 &&& 0xF) * 4 ≤ pkt.length →
      pkt.getD (off + 9) 0 ≠ 1 → pkt.getD (off + 9) 0 ≠ 6 →
      pkt.getD (off + 9) 0 ≠ 17 →
      parseIPv4 pkt off =
        some (.other
          [pkt.getD (off + 12) 0, pkt.getD (off + 13) 0,
            pkt.getD (off + 14) 0, pkt.getD (off + 15) 0]
          [pkt.getD (off + 16) 0, pkt.getD (off + 17) 0,
            pkt.getD (off + 18) 0, pkt.getD (off + 19) 0]
          (pkt.getD (off + 9) 0) (be16 pkt (off + 2)))) := by
  refine ⟨?_, ?_, ?_⟩
  · intro h
    simp [parseIPv4, h]
  · intro h1 h2
    simp only [List.getD_eq_getElem?_getD] at h2
    simp [parseIPv4, Nat.not_lt.mpr h1, h2]
  · intro h1 h2 hp1 hp6 hp17
    simp only [List.getD_eq_getElem?_getD] at h2 hp1 hp6 hp17
    simp [parseIPv4, Nat.not_lt.mpr h1, Nat.not_lt.mpr h2, hp1, hp6, hp17]

/-- Witness for the amended C4 at the concrete IHL-0 packet. -/
theorem parseIPv4_reject_iff_short_witness :
    parseIPv4 pktIhlZero 14 =
      some (.other [0x0a, 0x00, 0x00, 0x01] [0x0a, 0x00, 0x00, 0x02] 0xff 0x28) :=
  (parseIPv4_reject_iff_short pktIhlZero 14).2.2 (by decide) (by decide)
    (by decide) (by decide) (by decide)

/-- A 42-byte packet: Ethernet, 20-byte IPv4 header with protocol 1 (ICMP),
then exactly the 8 bytes of an ICMP echo request (type 8, code 0,
id 0x1234, seq 1). -/
def pktIcmpEcho8 : List Nat :=
  [0xff, 0xff, 0xff, 0xff, 0xff, 0xff, 0x00, 0x00, 0x00, 0x00, 0x00, 0x00,
   0x08, 0x00,
   0x45, 0x00, 0x00, 0x1c, 0x00, 0x00, 0x00, 0x00, 0x40, 0x01, 0x00, 0x00,
   0x0a, 0x00, 0x00, 0x01, 0x0a, 0x00, 0x00, 0x02,
   0x08, 0x00, 0x00, 0x00, 0x12, 0x34, 0x00, 0x01]

/-- The same packet padded so that 28 bytes follow the IPv4 header. -/
def pktIcmpEcho28 : List Nat :=
  pktIcmpEcho8 ++ [0, 0, 0, 0, 0, 0, 0, 0, 0, 0, 0, 0, 0, 0, 0, 0, 0, 0, 0, 0]

/-- C6 (code bug): the ICMP bounds check compares against
`sizeof(struct icmp)` = 28, not the 8-byte minimum its own comment states:
an echo request with exactly 8 captured ICMP bytes is silently dropped,
while the same packet with 28 trailing bytes is decoded (id/seq from bytes
4..8). -/
theorem icmp_eight_byte_packet_dropped :
    34 + 8 ≤ pktIcmpEcho8.length ∧
      parseAndPrint pktIcmpEcho8 = none ∧
      parseAndPrint pktIcmpEcho28 =
        some (.icmp [0x0a, 0x00, 0x00, 0x01] [0x0a, 0x00, 0x00, 0x02]
          8 0 (some (0x1234, 1)) 28) := by
  decide

/-! ### Capture-batch walking: `Sniffer::doReadLoop`
(Sniffer.cpp lines 93-123, identical in sniffer/Sniffer.cpp lines 172-280).
A batch is the byte buffer one `read` returned.  The walker interprets a
`struct bpf_hdr` at the cursor: on the capture target the fields sit at
offsets 0 (tv_sec), 4 (tv_usec), 8 (bh_caplen), 12 (bh_datalen) and
16 (bh_hdrlen, 2 bytes), in host (little-endian) byte order, so 18 bytes
are needed to read the header's own fields.  `BPF_WORDALIGN` is the
`(((x)+3) & ~3)` form from net/bpf.h, written arithmetically. -/

def readLE16 (b : List Nat) (i : Nat) : Nat :=
  b.getD i 0 + 256 * b.getD (i + 1) 0

def readLE32 (b : List Nat) (i : Nat) : Nat :=
  b.getD i 0 + 256 * b.getD (i + 1) 0 + 65536 * b.getD (i + 2) 0 +
    16777216 * b.getD (i + 3) 0

def BPF_WORDALIGN (x : Nat) : Nat := ((x + 3) / 4) * 4

/-- Offset one past `bh_hdrlen`: the least header length that covers the
capture header's own fields. -/
def BPF_HDR_FIELDS_END : Nat := 18

/-- A record handed to the packet parser: slice start, captured length, and
the two timestamp words. -/
structure BpfRec where
  off : Nat
  caplen : Nat
  tsec : Nat
  tusec : Nat
deriving DecidableEq

inductive WalkStep where
  | stop
  | next (r : BpfRec) (cursor : Nat)
deriving DecidableEq

/-- One iteration of the walk loop: the two truncation checks
(`ptr + bh_hdrlen > end`, `packet + bh_caplen > end`), then the packet slice
and the aligned cursor advance. -/
def walkStep (batch : List Nat) (p : Nat) : WalkStep :=
  let hdrlen := readLE16 batch (p + 16)
  let caplen := readLE32 batch (p + 8)
  if batch.length < p + hdrlen then .stop
  else if batch.length < p + hdrlen + caplen then .stop
  else
    .next ⟨p + hdrlen, caplen, readLE32 batch p, readLE32 batch (p + 4)⟩
      (p + BPF_WORDALIGN (hdrlen + caplen))

/-- The `while (ptr < end)` loop.  The C loop has no fuel; a record with
`BPF_WORDALIGN(hdrlen + caplen) = 0` makes it spin on the same cursor
forever, which the fuel renders as an empty tail. -/
def walkBatch (batch : List Nat) : Nat → Nat → List BpfRec
  | 0, _ => []
  | fuel + 1, p =>
    if batch.length ≤ p then []
    else
      match walkStep batch p with
      | .stop => []
      | .next r cur => r :: walkBatch batch fuel cur

/-- An 18-byte batch whose capture header reports `bh_hdrlen = 4` and
`bh_caplen = 0`. -/
def batchHdrlen4 : List Nat :=
  [0, 0, 0, 0, 0, 0, 0, 0, 0, 0, 0, 0, 0, 0, 0, 0, 4, 0]

/-- Counterexample to C5 as stated: this batch's capture header reports a
header length of 4, less than the 18 bytes its own fields occupy, yet the
walker does not stop: it processes a record and advances the cursor. -/
theorem walker_missing_hdrlen_min_check :
    readLE16 batchHdrlen4 16 < BPF_HDR_FIELDS_END ∧
      walkStep batchHdrlen4 0 ≠ .stop ∧
      walkStep batchHdrlen4 0 = .next ⟨4, 0, 0, 0⟩ 4 ∧
      walkBatch batchHdrlen4 2 0 = [⟨4, 0, 0, 0⟩, ⟨4, 0, 0, 0⟩] := by
  decide

/-- Inversion of a non-stopping walk step: the record is the header-reported
slice, in bounds, and the cursor advances by the aligned record size. -/
theorem walkStep_next_inv (batch : List Nat) (p : Nat) (r : BpfRec) (cur : Nat)
    (h : walkStep batch p = .next r cur) :
    r = ⟨p + readLE16 batch (p + 16), readLE32 batch (p + 8),
        readLE32 batch p, readLE32 batch (p + 4)⟩ ∧
      cur = p + BPF_WORDALIGN (readLE16 batch (p + 16) +
        readLE32 batch (p + 8)) ∧
      p + readLE16 batch (p + 16) + readLE32 batch (p + 8) ≤ batch.length := by
  unfold walkStep at h
  dsimp only at h
  by_cases h1 : batch.length < p + readLE16 batch (p + 16)
  · rw [if_pos h1] at h
    exact absurd h (by simp)
  · rw [if_neg h1] at h
    by_cases h2 : batch.length < p + readLE16 batch (p + 16) +
        readLE32 batch (p + 8)
    · rw [if_pos h2] at h
      exact absurd h (by simp)
    · rw [if_neg h2] at h
      simp only [WalkStep.next.injEq] at h
      exact ⟨h.1.symm, h.2.symm, by omega⟩

/-- Every record the walker emits lies within the batch. -/
theorem walkBatch_bounds (batch : List Nat) :
    ∀ (fuel p : Nat) (r : BpfRec), r ∈ walkBatch batch fuel p →
      r.off + r.caplen ≤ batch.length := by
  intro fuel
  induction fuel with
  | zero =>
    intro p r hr
    simp [walkBatch] at hr
  | succ fuel ih =>
    intro p r hr
    rw [walkBatch] at hr
    by_cases hp : batch.length ≤ p
    · simp [hp] at hr
    · rw [if_neg hp] at hr
      rcases hstep : walkStep batch p with _ | ⟨r0, cur⟩
      · rw [hstep] at hr
        simp at hr
      · rw [hstep] at hr
        obtain ⟨hr0, _, hbound⟩ := walkStep_next_inv batch p r0 cur hstep
        rcases List.mem_cons.mp hr with hre | hrm
        · rw [hre, hr0]
          exact hbound
        · exact ih cur r hrm

/-- C5 amended: the walker stops exactly on the two truncation conditions
`p + header_len > N` and `p + header_len + captured_len > N`; otherwise it
hands the in-bounds slice to the parser and advances the cursor by
`BPF_WORDALIGN(header_len + captured_len)`.  No minimum is enforced on the
header-reported `header_len`.  Every record emitted over a whole batch walk
stays within the batch. -/
theorem walker_stop_characterization (batch : List Nat) (p : Nat) :
    (walkStep batch p = .stop ↔
      batch.length < p + readLE16 batch (p + 16) ∨
        batch.length < p + readLE16 batch (p + 16) + readLE32 batch (p + 8)) ∧
    (∀ r cur, walkStep batch p = .next r cur →
      r.off = p + readLE16 batch (p + 16) ∧
        r.caplen = readLE32 batch (p + 8) ∧
        r.off + r.caplen ≤ batch.length ∧
        cur = p + BPF_WORDALIGN (readLE16 batch (p + 16) +
          readLE32 batch (p + 8))) ∧
    (∀ fuel r, r ∈ walkBatch batch fuel p → r.off + r.caplen ≤ batch.length) := by
  refine ⟨?_, ?_, fun fuel r hr => walkBatch_bounds batch fuel p r hr⟩
  · constructor
    · intro h
      by_cases h1 : batch.length < p + readLE16 batch (p + 16)
      · exact Or.inl h1
      · by_cases h2 : batch.length < p + readLE16 batch (p + 16) +
            readLE32 batch (p + 8)
        · exact Or.inr h2
        · unfold walkStep at h
          dsimp only at h
          rw [if_neg h1, if_neg h2] at h
          exact absurd h (by simp)
    · intro h
      unfold walkStep
      dsimp only
      rcases h with h | h
      · rw [if_pos h]
      · by_cases h1 : batch.length < p + readLE16 batch (p + 16)
        · rw [if_pos h1]
        · rw [if_neg h1, if_pos h]
  · intro r cur h
    obtain ⟨hr, hcur, hbound⟩ := walkStep_next_inv batch p r cur h
    rw [hr]
    refine ⟨rfl, rfl, ?_, hcur⟩
    dsimp only
    omega

/-- Witness for the amended C5: a batch of 20 zero bytes reports
`hdrlen = 0`, `caplen = 0`, so the walker does not stop but advances the
cursor by `BPF_WORDALIGN(0) = 0` — the spin the fuel cuts off. -/
theorem walker_stop_characterization_witness :
    walkStep (List.replicate 20 0) 0 ≠ .stop ∧
      (⟨0, 0, 0, 0⟩ : BpfRec).off + (⟨0, 0, 0, 0⟩ : BpfRec).caplen ≤
        (List.replicate 20 0).length := by
  constructor
  · intro h
    have := (walker_stop_characterization (List.replicate 20 0) 0).1.mp h
    revert this
    decide
  · exact ((walker_stop_characterization (List.replicate 20 0) 0).2.1
      ⟨0, 0, 0, 0⟩ 0 (by decide)).2.2.1

/-! ### Hub registry and fan-out: server.cpp `handleClient` (lines 323-435)
Every access to the shared registry happens inside a
`lock_guard(clients_mutex)` critical section, so a hub execution is
modelled as a sequence of atomic events, each one locked section:
registration (lines 349-385: allocate `next_ssid`, send SERVER_HELLO,
insert into `clients` — the send result decides whether the insert is
reached), fan-out of one TRAFFIC_LOG (lines 405-413: `sendFrame` to every
non-sniffer client, its result discarded), and worker-exit cleanup
(lines 430-434).  Frame writes are recorded with the success their
transport reported. -/

structure Client where
  fd : Nat
  ssid : Nat
  is_sniffer : Bool
deriving DecidableEq

/-- One frame written by the hub: destination fd, message type, the ssid it
carries, and whether the transport write succeeded. -/
structure HubMsg where
  fd : Nat
  mtype : Nat
  ssid : Nat
  ok : Bool
deriving DecidableEq

structure HubState where
  clients : List Client
  next_ssid : Nat
  assigned : List Nat
  sent : List HubMsg
deriving DecidableEq

/-- `clients` empty, `next_ssid = 1` (server.cpp line 112). -/
def initHub : HubState := ⟨[], 1, [], []⟩

inductive HubEv where
  | hello (fd : Nat) (sniffer helloOk : Bool)
  | traffic (fd : Nat) (sendOk : Nat → Bool)
  | disconnect (fd : Nat)

/-- `next_ssid` is a `uint32_t`; its post-increment wraps modulo 2^32. -/
def UINT32_MOD : Nat := 4294967296

/-- Registration (lines 349-385): `ssid = next_ssid++` is consumed before
the SERVER_HELLO write (the increment wrapping as unsigned 32-bit
arithmetic); a failed write closes the connection without registering, and
the ssid is not returned. -/
def stepHello (s : HubState) (fd : Nat) (snf ok : Bool) : HubState :=
  let ssid := s.next_ssid
  let s1 : HubState :=
    { s with
      next_ssid := (s.next_ssid + 1) % UINT32_MOD
      assigned := s.assigned ++ [ssid]
      sent := s.sent ++ [⟨fd, TYPE_SERVER_HELLO, ssid, ok⟩] }
  if ok then { s1 with clients := s1.clients ++ [⟨fd, ssid, snf⟩] } else s1

/-- Fan-out of one TRAFFIC_LOG from the sniffer registered at `fd`
(lines 392-414): FORWARD_LOG carrying the sniffer's ssid is written to every
non-sniffer client in registration order; the write results are ignored and
the registry is untouched. -/
def stepTraffic (s : HubState) (fd : Nat) (sendOk : Nat → Bool) : HubState :=
  match s.clients.find? (fun c => c.fd == fd) with
  | some c =>
    if c.is_sniffer then
      { s with
        sent := s.sent ++ (s.clients.filter (fun v => ! v.is_sniffer)).map
          (fun v => ⟨v.fd, TYPE_FORWARD_LOG, c.ssid, sendOk v.fd⟩) }
    else s
  | none => s

/-- Worker-exit cleanup (lines 430-434): erase the session of this fd. -/
def stepDisconnect (s : HubState) (fd : Nat) : HubState :=
  { s with clients := s.clients.filter (fun c => ! (c.fd == fd)) }

def hubStep (s : HubState) : HubEv → HubState
  | .hello fd snf ok => stepHello s fd snf ok
  | .traffic fd sendOk => stepTraffic s fd sendOk
  | .disconnect fd => stepDisconnect s fd

/-- A hub execution from process start. -/
def runHub (evs : List HubEv) : HubState := evs.foldl hubStep initHub

theorem stepTraffic_skeleton (s : HubState) (fd : Nat) (sendOk : Nat → Bool) :
    (stepTraffic s fd sendOk).clients = s.clients ∧
      (stepTraffic s fd sendOk).assigned = s.assigned ∧
      (stepTraffic s fd sendOk).next_ssid = s.next_ssid := by
  unfold stepTraffic
  rcases h : s.clients.find? (fun c => c.fd == fd) with _ | c
  · rw [h]
    exact ⟨rfl, rfl, rfl⟩
  · rw [h]
    by_cases hc : c.is_sniffer <;> simp [hc]

theorem range'_pairwise_lt (s n : Nat) : (List.range' s n).Pairwise (· < ·) := by
  induction n generalizing s with
  | zero => simp
  | succ n ih =>
    rw [List.range'_succ]
    refine List.Pairwise.cons ?_ (ih (s + 1))
    intro b hb
    rw [List.mem_range'] at hb
    obtain ⟨i, _, hbi⟩ := hb
    omega

theorem range'_snoc (s n : Nat) :
    List.range' s n ++ [s + n] = List.range' s (n + 1) := by
  induction n generalizing s with
  | zero => simp
  | succ n ih =>
    rw [List.range'_succ, List.range'_succ, List.cons_append]
    congr 1
    rw [show s + (n + 1) = (s + 1) + n by omega]
    exact ih (s + 1)

theorem stepHello_assigned (s : HubState) (fd : Nat) (snf ok : Bool) :
    (stepHello s fd snf ok).assigned = s.assigned ++ [s.next_ssid] := by
  unfold stepHello
  by_cases h : ok <;> simp [h]

theorem stepHello_next (s : HubState) (fd : Nat) (snf ok : Bool) :
    (stepHello s fd snf ok).next_ssid = (s.next_ssid + 1) % UINT32_MOD := by
  unfold stepHello
  by_cases h : ok <;> simp [h]

/-- Each event either leaves the ssid bookkeeping alone or consumes exactly
the current counter value, advancing the counter with uint32 wrap. -/
theorem hubStep_assigned (s : HubState) (e : HubEv) :
    ((hubStep s e).assigned = s.assigned ∧
        (hubStep s e).next_ssid = s.next_ssid) ∨
      ((hubStep s e).assigned = s.assigned ++ [s.next_ssid] ∧
        (hubStep s e).next_ssid = (s.next_ssid + 1) % UINT32_MOD) := by
  cases e with
  | hello fd snf ok =>
    exact Or.inr ⟨stepHello_assigned s fd snf ok, stepHello_next s fd snf ok⟩
  | traffic fd sendOk =>
    exact Or.inl ⟨(stepTraffic_skeleton s fd sendOk).2.1,
      (stepTraffic_skeleton s fd sendOk).2.2⟩
  | disconnect fd => exact Or.inl ⟨rfl, rfl⟩

/-- After `n` consumed ssids the counter holds `(1 + n) % 2^32` and the
consumed ssids are `(1+0) % 2^32, (1+1) % 2^32, ...` in order. -/
theorem hub_assigned_invariant (evs : List HubEv) :
    ∀ s : HubState,
      s.assigned = (List.range' 1 s.assigned.length).map (· % UINT32_MOD) →
      s.next_ssid = (1 + s.assigned.length) % UINT32_MOD →
      (evs.foldl hubStep s).assigned =
          (List.range' 1 (evs.foldl hubStep s).assigned.length).map
            (· % UINT32_MOD) ∧
        (evs.foldl hubStep s).next_ssid =
          (1 + (evs.foldl hubStep s).assigned.length) % UINT32_MOD := by
  induction evs with
  | nil => exact fun s h1 h2 => ⟨h1, h2⟩
  | cons e evs ih =>
    intro s h1 h2
    show ((evs.foldl hubStep (hubStep s e)).assigned = _ ∧ _)
    rcases hubStep_assigned s e with ⟨ha, hn⟩ | ⟨ha, hn⟩
    · exact ih _ (by rw [ha]; exact h1) (by rw [hn, ha]; exact h2)
    · refine ih _ ?_ ?_
      · rw [ha, h2, List.length_append]
        simp only [List.length_cons, List.length_nil, Nat.zero_add]
        rw [← range'_snoc 1 s.assigned.length, List.map_append]
        rw [← h1]
        simp
      · rw [hn, ha, h2, List.length_append]
        simp only [List.length_cons, List.length_nil, Nat.zero_add, UINT32_MOD]
        omega

/-- A run of `k` accepted registrations consumes `k` ssids. -/
theorem foldl_hello_assigned_length (k : Nat) :
    ∀ s : HubState,
      (List.foldl hubStep s
          (List.replicate k (HubEv.hello 0 false true))).assigned.length =
        s.assigned.length + k := by
  induction k with
  | zero =>
    intro s
    simp
  | succ k ih =>
    intro s
    rw [List.replicate_succ, List.foldl_cons, ih]
    show (stepHello s 0 false true).assigned.length + k =
      s.assigned.length + (k + 1)
    rw [stepHello_assigned, List.length_append]
    simp only [List.length_cons, List.length_nil]
    omega

/-- An execution of 2^32 + 1 accepted registrations. -/
def evsWrap : List HubEv :=
  List.replicate (UINT32_MOD + 1) (HubEv.hello 0 false true)

/-- The ssid sequence such an execution consumes. -/
def wrapSsids : List Nat :=
  (List.range' 1 (UINT32_MOD + 1)).map (· % UINT32_MOD)

theorem wrapSsids_length : wrapSsids.length = UINT32_MOD + 1 := by
  simp [wrapSsids]

theorem wrapSsids_getElem (i : Nat) (h : i < wrapSsids.length) :
    wrapSsids[i] = (1 + i) % UINT32_MOD := by
  simp [wrapSsids, List.getElem_range'_1]

theorem runHub_evsWrap_assigned : (runHub evsWrap).assigned = wrapSsids := by
  have hlen : (List.foldl hubStep initHub evsWrap).assigned.length =
      UINT32_MOD + 1 := by
    show (List.foldl hubStep initHub
      (List.replicate (UINT32_MOD + 1) (HubEv.hello 0 false true))).assigned.length = _
    rw [foldl_hello_assigned_length]
    rfl
  have h1 := (hub_assigned_invariant evsWrap initHub rfl rfl).1
  rw [hlen] at h1
  exact h1

/-- Counterexample to C7 as stated: `next_ssid` is a `uint32_t`, so in an
execution with 2^32 + 1 registrations the counter wraps: the reserved
ssid 0 is assigned, the assigned sequence is not strictly increasing, and
ssid 1 is consumed twice — a reuse within the process lifetime. -/
theorem ssid_wrap_reuses :
    (0 : Nat) ∈ (runHub evsWrap).assigned ∧
      ¬ (runHub evsWrap).assigned.Pairwise (· < ·) ∧
      ¬ (runHub evsWrap).assigned.Nodup := by
  rw [runHub_evsWrap_assigned]
  have hlb : 0 < wrapSsids.length := by
    rw [wrapSsids_length]
    omega
  have hub : UINT32_MOD < wrapSsids.length := by
    rw [wrapSsids_length]
    omega
  have hv0 : wrapSsids[0] = 1 := by
    rw [wrapSsids_getElem 0 hlb]
    unfold UINT32_MOD
    omega
  have hvM : wrapSsids[UINT32_MOD] = 1 := by
    rw [wrapSsids_getElem UINT32_MOD hub]
    unfold UINT32_MOD
    omega
  refine ⟨?_, ?_, ?_⟩
  · refine List.mem_map.mpr ⟨UINT32_MOD, ?_, Nat.mod_self _⟩
    rw [List.mem_range']
    refine ⟨UINT32_MOD - 1, ?_, ?_⟩
    · unfold UINT32_MOD
      omega
    · unfold UINT32_MOD
      omega
  · intro hp
    have h2 := List.pairwise_iff_getElem.mp hp 0 UINT32_MOD hlb hub
      (by unfold UINT32_MOD; omega)
    rw [hv0, hvM] at h2
    omega
  · intro hnd
    have h2 := List.pairwise_iff_getElem.mp hnd 0 UINT32_MOD hlb hub
      (by unfold UINT32_MOD; omega)
    rw [hv0, hvM] at h2
    exact h2 rfl

theorem range'_map_mod_id (n : Nat) (hn : n < UINT32_MOD) :
    (List.range' 1 n).map (· % UINT32_MOD) = List.range' 1 n := by
  have hcong : ∀ x ∈ List.range' 1 n, x % UINT32_MOD = x := by
    intro x hx
    rw [List.mem_range'] at hx
    obtain ⟨i, hi, hxi⟩ := hx
    exact Nat.mod_eq_of_lt (by omega)
  calc (List.range' 1 n).map (· % UINT32_MOD)
      = (List.range' 1 n).map (fun x => x) := List.map_congr_left hcong
    _ = List.range' 1 n := List.map_id' _

/-- C7 amended: as long as the process has performed fewer than 2^32
registrations, the consumed ssids are exactly `1, 2, ..., n` in order —
strictly increasing from 1 with no duplicate and no reuse, also across
registrations whose SERVER_HELLO write fails after the ssid was consumed;
past 2^32 registrations the uint32 counter wraps and ssids repeat. -/
theorem ssid_strictly_increasing (evs : List HubEv)
    (hlt : (runHub evs).assigned.length < UINT32_MOD) :
    (runHub evs).assigned = List.range' 1 (runHub evs).assigned.length ∧
      (runHub evs).assigned.Pairwise (· < ·) ∧
      (runHub evs).assigned.Nodup := by
  unfold runHub at *
  have h := (hub_assigned_invariant evs initHub rfl rfl).1
  rw [range'_map_mod_id _ hlt] at h
  refine ⟨h, ?_, ?_⟩
  · rw [h]
    exact range'_pairwise_lt 1 _
  · rw [h]
    exact List.nodup_range' _ _

/-- Witness for the amended C7: two registrations, the second failing its
SERVER_HELLO write, still consume ssids 1 and 2 in order. -/
theorem ssid_strictly_increasing_witness :
    (runHub [HubEv.hello 7 true true, HubEv.hello 8 false false]).assigned =
        List.range' 1 (runHub [HubEv.hello 7 true true,
          HubEv.hello 8 false false]).assigned.length ∧
      (runHub [HubEv.hello 7 true true,
        HubEv.hello 8 false false]).assigned.Pairwise (· < ·) ∧
      (runHub [HubEv.hello 7 true true,
        HubEv.hello 8 false false]).assigned.Nodup :=
  ssid_strictly_increasing [HubEv.hello 7 true true, HubEv.hello 8 false false]
    (by decide)

/-! ### Fan-out behaviour on send failure (C8) and message ordering (C9) -/

theorem stepTraffic_none (s : HubState) (fd : Nat) (sendOk : Nat → Bool)
    (hc : s.clients.find? (fun d => d.fd == fd) = none) :
    stepTraffic s fd sendOk = s := by
  unfold stepTraffic
  rw [hc]

theorem stepTraffic_viewer (s : HubState) (fd : Nat) (sendOk : Nat → Bool)
    (c : Client) (hc : s.clients.find? (fun d => d.fd == fd) = some c)
    (hs : c.is_sniffer = false) :
    stepTraffic s fd sendOk = s := by
  unfold stepTraffic
  rw [hc]
  simp [hs]

theorem stepTraffic_sniffer (s : HubState) (fd : Nat) (sendOk : Nat → Bool)
    (c : Client) (hc : s.clients.find? (fun d => d.fd == fd) = some c)
    (hs : c.is_sniffer = true) :
    stepTraffic s fd sendOk =
      { s with
        sent := s.sent ++ (s.clients.filter (fun v => ! v.is_sniffer)).map
          (fun v => ⟨v.fd, TYPE_FORWARD_LOG, c.ssid, sendOk v.fd⟩) } := by
  unfold stepTraffic
  rw [hc]
  simp [hs]

/-- A hub with viewers at fds 1 and 2 and a sniffer at fd 3, which then
fans out one traffic log during which only the send to fd 1 fails. -/
def evsTwoViewers : List HubEv :=
  [.hello 1 false true, .hello 2 false true, .hello 3 true true,
   .traffic 3 (fun d => d != 1)]

/-- Counterexample to C8 as stated: the FORWARD_LOG write to viewer fd 1
failed while the write to viewer fd 2 succeeded, yet viewer 1's session is
not marked for removal — the registry after the fan-out still holds all
three sessions unchanged, viewer 1 included. -/
theorem viewer_send_failure_not_marked :
    (⟨1, TYPE_FORWARD_LOG, 3, false⟩ : HubMsg) ∈ (runHub evsTwoViewers).sent ∧
      (⟨2, TYPE_FORWARD_LOG, 3, true⟩ : HubMsg) ∈ (runHub evsTwoViewers).sent ∧
      (runHub evsTwoViewers).clients =
        [⟨1, 1, false⟩, ⟨2, 2, false⟩, ⟨3, 3, true⟩] := by
  decide

/-- C8 amended: a FORWARD_LOG send failure during fan-out is ignored: the
result of `sendFrame` is discarded, so no session is marked for removal and
the registry is untouched; the failure is not propagated to the sniffer,
and the fan-out still attempts a send to every registered viewer with a
result independent of the other viewers' failures. -/
theorem viewer_send_failure_ignored (s : HubState) (fd : Nat)
    (sendOk : Nat → Bool) (c : Client)
    (hc : s.clients.find? (fun d => d.fd == fd) = some c)
    (hs : c.is_sniffer = true) :
    (stepTraffic s fd sendOk).clients = s.clients ∧
      (stepTraffic s fd sendOk).assigned = s.assigned ∧
      ∀ v ∈ s.clients, v.is_sniffer = false →
        (⟨v.fd, TYPE_FORWARD_LOG, c.ssid, sendOk v.fd⟩ : HubMsg) ∈
          (stepTraffic s fd sendOk).sent := by
  refine ⟨(stepTraffic_skeleton s fd sendOk).1,
    (stepTraffic_skeleton s fd sendOk).2.1, ?_⟩
  intro v hv hvs
  rw [stepTraffic_sniffer s fd sendOk c hc hs]
  apply List.mem_append_right
  apply List.mem_map.mpr
  refine ⟨v, ?_, rfl⟩
  rw [List.mem_filter]
  exact ⟨hv, by simp [hvs]⟩

/-- A hub with viewer fd 1 and sniffer fd 3 registered. -/
def hubTwoClients : HubState :=
  runHub [.hello 1 false true, .hello 3 true true]

/-- Witness for the amended C8: a fan-out whose every send fails leaves the
registry unchanged and records the failed attempt to the viewer. -/
theorem viewer_send_failure_ignored_witness :
    (stepTraffic hubTwoClients 3 (fun _ => false)).clients =
        hubTwoClients.clients ∧
      (⟨1, TYPE_FORWARD_LOG, 2, false⟩ : HubMsg) ∈
        (stepTraffic hubTwoClients 3 (fun _ => false)).sent :=
  ⟨(viewer_send_failure_ignored hubTwoClients 3 (fun _ => false) ⟨3, 2, true⟩
      (by decide) rfl).1,
    (viewer_send_failure_ignored hubTwoClients 3 (fun _ => false) ⟨3, 2, true⟩
      (by decide) rfl).2.2 ⟨1, 1, false⟩ (by decide) rfl⟩

/-- A delivered SERVER_HELLO addressed to `fd` occurs in the trace
portion `l`. -/
def helloIn (l : List HubMsg) (fd : Nat) : Prop :=
  ∃ m ∈ l, m.fd = fd ∧ m.mtype = TYPE_SERVER_HELLO ∧ m.ok = true

instance helloIn_decidable (l : List HubMsg) (fd : Nat) :
    Decidable (helloIn l fd) := by
  unfold helloIn
  exact List.decidableBEx _ l

theorem helloIn_append_left {l l' : List HubMsg} {fd : Nat}
    (h : helloIn l fd) : helloIn (l ++ l') fd := by
  obtain ⟨m, hm, hr⟩ := h
  exact ⟨m, List.mem_append_left _ hm, hr⟩

/-- Trace invariant of the hub: every written frame is a SERVER_HELLO or a
FORWARD_LOG; every registered client already has a delivered SERVER_HELLO in
the trace; and every FORWARD_LOG in the trace is preceded by a delivered
SERVER_HELLO on the same fd. -/
def HubTraceOK (s : HubState) : Prop :=
  (∀ m ∈ s.sent, m.mtype = TYPE_SERVER_HELLO ∨ m.mtype = TYPE_FORWARD_LOG) ∧
  (∀ c ∈ s.clients, helloIn s.sent c.fd) ∧
  (∀ i, ∀ hi : i < s.sent.length, (s.sent[i]).mtype = TYPE_FORWARD_LOG →
    helloIn (s.sent.take i) (s.sent[i]).fd)

/-- Appending frames that are hellos or forwards-with-prior-hello preserves
the two trace parts of the invariant. -/
theorem traceOK_append (s : HubState) (new : List HubMsg) (h : HubTraceOK s)
    (hnew : ∀ m ∈ new,
      (m.mtype = TYPE_SERVER_HELLO ∨ m.mtype = TYPE_FORWARD_LOG) ∧
        (m.mtype = TYPE_FORWARD_LOG → helloIn s.sent m.fd)) :
    (∀ m ∈ s.sent ++ new,
        m.mtype = TYPE_SERVER_HELLO ∨ m.mtype = TYPE_FORWARD_LOG) ∧
      (∀ i, ∀ hi : i < (s.sent ++ new).length,
        ((s.sent ++ new)[i]).mtype = TYPE_FORWARD_LOG →
        helloIn ((s.sent ++ new).take i) ((s.sent ++ new)[i]).fd) := by
  constructor
  · intro m hm
    rcases List.mem_append.mp hm with hm | hm
    · exact h.1 m hm
    · exact (hnew m hm).1
  · intro i hi
    by_cases hlt : i < s.sent.length
    · rw [List.getElem_append_left hlt,
        List.take_append_of_le_length (Nat.le_of_lt hlt)]
      exact h.2.2 i hlt
    · have hge : s.sent.length ≤ i := Nat.le_of_not_lt hlt
      have hsub : i - s.sent.length < new.length := by
        rw [List.length_append] at hi
        omega
      rw [List.getElem_append_right hge]
      intro hf
      have hmem : new[i - s.sent.length] ∈ new := List.getElem_mem hsub
      have hback := (hnew _ hmem).2 hf
      rw [List.take_append_eq_append_take,
        List.take_of_length_le hge]
      exact helloIn_append_left hback

/-- One hub event preserves the trace invariant. -/
theorem hubStep_traceOK (s : HubState) (e : HubEv) (h : HubTraceOK s) :
    HubTraceOK (hubStep s e) := by
  cases e with
  | hello fd snf ok =>
    have hsent : (stepHello s fd snf ok).sent =
        s.sent ++ [⟨fd, TYPE_SERVER_HELLO, s.next_ssid, ok⟩] := by
      unfold stepHello
      by_cases hb : ok <;> simp [hb]
    have hcl : (stepHello s fd snf ok).clients =
        if ok then s.clients ++ [⟨fd, s.next_ssid, snf⟩] else s.clients := by
      unfold stepHello
      by_cases hb : ok <;> simp [hb]
    have happ := traceOK_append s [⟨fd, TYPE_SERVER_HELLO, s.next_ssid, ok⟩] h
      (by
        intro m hm
        rw [List.mem_singleton] at hm
        subst hm
        exact ⟨Or.inl rfl, by
          intro hf
          simp [TYPE_SERVER_HELLO, TYPE_FORWARD_LOG] at hf⟩)
    show HubTraceOK (stepHello s fd snf ok)
    refine ⟨hsent ▸ happ.1, ?_, hsent ▸ happ.2⟩
    intro c hc
    rw [hcl] at hc
    rw [hsent]
    by_cases hb : ok
    · rw [if_pos hb] at hc
      rcases List.mem_append.mp hc with hc | hc
      · exact helloIn_append_left (h.2.1 c hc)
      · rw [List.mem_singleton] at hc
        subst hc
        exact ⟨⟨fd, TYPE_SERVER_HELLO, s.next_ssid, ok⟩,
          List.mem_append_right _ (List.mem_singleton.mpr rfl),
          rfl, rfl, by rw [hb]⟩
    · rw [if_neg hb] at hc
      exact helloIn_append_left (h.2.1 c hc)
  | traffic fd sendOk =>
    show HubTraceOK (stepTraffic s fd sendOk)
    rcases hfind : s.clients.find? (fun d => d.fd == fd) with _ | c
    · rw [stepTraffic_none s fd sendOk hfind]
      exact h
    · by_cases hsnf : c.is_sniffer
      · rw [stepTraffic_sniffer s fd sendOk c hfind hsnf]
        have happ := traceOK_append s
          ((s.clients.filter (fun v => ! v.is_sniffer)).map
            (fun v => ⟨v.fd, TYPE_FORWARD_LOG, c.ssid, sendOk v.fd⟩)) h
          (by
            intro m hm
            obtain ⟨v, hvf, hveq⟩ := List.mem_map.mp hm
            have hv : v ∈ s.clients := (List.mem_filter.mp hvf).1
            subst hveq
            exact ⟨Or.inr rfl, fun _ => h.2.1 v hv⟩)
        exact ⟨happ.1, fun c hc => helloIn_append_left (h.2.1 c hc), happ.2⟩
      · rw [stepTraffic_viewer s fd sendOk c hfind
          (Bool.of_not_eq_true hsnf)]
        exact h
  | disconnect fd =>
    show HubTraceOK (stepDisconnect s fd)
    refine ⟨h.1, ?_, h.2.2⟩
    intro c hc
    exact h.2.1 c (List.mem_filter.mp hc).1

theorem runHub_traceOK (evs : List HubEv) : HubTraceOK (runHub evs) := by
  unfold runHub
  have haux : ∀ evs : List HubEv, ∀ s : HubState, HubTraceOK s →
      HubTraceOK (evs.foldl hubStep s) := by
    intro evs
    induction evs with
    | nil => exact fun s h => h
    | cons e evs ih => exact fun s h => ih _ (hubStep_traceOK s e h)
  refine haux evs initHub ⟨?_, ?_, ?_⟩
  · intro m hm
    exact absurd hm (List.not_mem_nil m)
  · intro c hc
    exact absurd hc (List.not_mem_nil c)
  · intro i hi
    exact absurd hi (by simp [initHub])

/-- C9. Hello-before-forward: on every connection's channel, every delivered
FORWARD_LOG frame is preceded in the hub's write order by a delivered
SERVER_HELLO to the same fd, and the first delivered frame on a channel is
always the SERVER_HELLO — because SERVER_HELLO is written under the registry
lock before the session is inserted and so before fan-out can see it. -/
theorem hello_before_forward (evs : List HubEv) (i : Nat)
    (hi : i < (runHub evs).sent.length) :
    (((runHub evs).sent[i]).mtype = TYPE_FORWARD_LOG →
      ((runHub evs).sent[i]).ok = true →
      helloIn ((runHub evs).sent.take i) ((runHub evs).sent[i]).fd) ∧
    (((runHub evs).sent[i]).ok = true →
      (∀ m ∈ (runHub evs).sent.take i,
        m.fd = ((runHub evs).sent[i]).fd → m.ok = false) →
      ((runHub evs).sent[i]).mtype = TYPE_SERVER_HELLO) := by
  have h := runHub_traceOK evs
  constructor
  · intro hf _
    exact h.2.2 i hi hf
  · intro _ hfirst
    rcases h.1 _ (List.getElem_mem hi) with h2 | h4
    · exact h2
    · exfalso
      obtain ⟨m, hm, hmf, _, hmok⟩ := h.2.2 i hi h4
      rw [hfirst m hm hmf] at hmok
      exact Bool.false_ne_true hmok

/-- Events: viewer fd 1 registers, sniffer fd 3 registers, one traffic log
is fanned out successfully. -/
def evsHelloFirst : List HubEv :=
  [.hello 1 false true, .hello 3 true true, .traffic 3 (fun _ => true)]

/-- Witness for C9: in the concrete trace, the FORWARD_LOG at index 2 is
preceded by a delivered SERVER_HELLO to fd 1. -/
theorem hello_before_forward_witness :
    helloIn ((runHub evsHelloFirst).sent.take 2)
      (((runHub evsHelloFirst).sent.get ⟨2, by decide⟩).fd) :=
  (hello_before_forward evsHelloFirst 2 (by decide)).1 (by decide) (by decide)

end NetworkSniffer
